import Mathlib

/-!
Shallow embedding of the canvas interaction engine of
`src/components/AnnotationCanvas.tsx` together with the element data model of
`src/types.ts`.  JavaScript numbers are modelled as exact rationals (`ℚ`);
optional fields become `Option`; the `customData.entryRatio` field is
flattened onto the element record (the code only ever reads it through
`element.customData?.entryRatio ?? 0.5` and writes it whole, so the
object-vs-field nesting is observationally irrelevant).  Fields that no
embedded function reads or writes distinctly (font attributes, `imageData`)
are omitted: every embedded operation copies them verbatim via record update.
-/

namespace Canvas

/-- The `Tool` union of `src/types.ts`. -/
inductive Tool where
  | hand
  | selection
  | rectangle
  | diamond
  | ellipse
  | arrow
  | line
  | pencil
  | text
  | image
  | eraser
  | long_position
  | short_position
  | path
  | laser
deriving DecidableEq, Repr

/-- The `Point` record of `src/types.ts`. -/
structure Point where
  x : ℚ
  y : ℚ
deriving DecidableEq, Repr

/-- `strokeStyle: 'solid' | 'dashed' | 'dotted'`. -/
inductive StrokeStyle where
  | solid
  | dashed
  | dotted
deriving DecidableEq, Repr

/-- `startArrowhead`/`endArrowhead`: `'arrow' | 'dot' | null` (the `null`
case is `Option.none` on the element). -/
inductive ArrowheadKind where
  | arrow
  | dot
deriving DecidableEq, Repr

/-- The `DrawingElement` record of `src/types.ts`, restricted to the fields
the embedded operations touch. -/
structure DrawingElement where
  id : String
  type : Tool
  x : ℚ
  y : ℚ
  width : Option ℚ := none
  height : Option ℚ := none
  points : Option (List Point) := none
  text : Option String := none
  strokeColor : String := "#000000"
  backgroundColor : String := "transparent"
  strokeWidth : ℚ := 2
  strokeStyle : Option StrokeStyle := none
  opacity : Option ℚ := none
  startArrowhead : Option ArrowheadKind := none
  endArrowhead : Option ArrowheadKind := none
  entryRatio : Option ℚ := none
deriving DecidableEq, Repr

instance : Inhabited DrawingElement :=
  ⟨{ id := "", type := Tool.rectangle, x := 0, y := 0 }⟩

/-- Result record of `getElementBounds`. -/
structure Bounds where
  minX : ℚ
  maxX : ℚ
  minY : ℚ
  maxY : ℚ
deriving DecidableEq, Repr

/-- `getElementBounds` (AnnotationCanvas.tsx:79-92): for `path`/`pencil`
the min/max over the point sequence (degenerate box at the origin when the
sequence is absent or empty), otherwise min/max of `x, x+width` and
`y, y+height` with `width`/`height` defaulting to `0`. -/
def getElementBounds (element : DrawingElement) : Bounds :=
  if element.type = Tool.path ∨ element.type = Tool.pencil then
    match element.points with
    | none => ⟨element.x, element.x, element.y, element.y⟩
    | some [] => ⟨element.x, element.x, element.y, element.y⟩
    | some (p :: ps) =>
        ⟨(ps.map Point.x).foldl min p.x, (ps.map Point.x).foldl max p.x,
         (ps.map Point.y).foldl min p.y, (ps.map Point.y).foldl max p.y⟩
  else
    let w := element.width.getD 0
    let h := element.height.getD 0
    ⟨min element.x (element.x + w), max element.x (element.x + w),
     min element.y (element.y + h), max element.y (element.y + h)⟩

/-- The kind list appearing in `getResizeHandleAtPosition` and
`normalizeElement`:
`['rectangle', 'diamond', 'ellipse', 'image', 'long_position', 'short_position']`. -/
def boxKinds : List Tool :=
  [Tool.rectangle, Tool.diamond, Tool.ellipse, Tool.image,
   Tool.long_position, Tool.short_position]

/-- `normalizeElement` (AnnotationCanvas.tsx:468-482): for box-like kinds
with negative `width` or `height`, shift the origin and take absolute
values; otherwise the element is returned unchanged. -/
def normalizeElement (element : DrawingElement) : DrawingElement :=
  if element.type ∈ boxKinds then
    let w := element.width.getD 0
    let h := element.height.getD 0
    if w < 0 ∨ h < 0 then
      { element with
        x := if w < 0 then element.x + w else element.x,
        y := if h < 0 then element.y + h else element.y,
        width := some |w|,
        height := some |h| }
    else element
  else element

/-- `const HANDLE_SIZE = 8` (AnnotationCanvas.tsx:63). -/
def HANDLE_SIZE : ℚ := 8

/-- The resize-handle names of `InteractionState.resizeHandle`
(`'tl' | 'tr' | 'bl' | 'br' | 'n' | 's' | 'entry'`). -/
inductive Handle where
  | tl
  | tr
  | bl
  | br
  | n
  | s
  | entry
deriving DecidableEq, Repr

/-- The literal string each handle is represented by in the source, as its
character list. -/
def handleName : Handle → List Char
  | Handle.tl => ['t', 'l']
  | Handle.tr => ['t', 'r']
  | Handle.bl => ['b', 'l']
  | Handle.br => ['b', 'r']
  | Handle.n => ['n']
  | Handle.s => ['s']
  | Handle.entry => ['e', 'n', 't', 'r', 'y']

/-- `getResizeHandleAtPosition` (AnnotationCanvas.tsx:441-466).  `scale` is
the ambient view-transform scale the component closure reads.  Comparisons
are strict and per-axis, exactly as in the source. -/
def getResizeHandleAtPosition (x y : ℚ) (element : DrawingElement)
    (scale : ℚ) : Option Handle :=
  if element.type ∉ boxKinds then none
  else
    let ex := element.x
    let ey := element.y
    let w := element.width.getD 0
    let h := element.height.getD 0
    let handleRadius := (HANDLE_SIZE / 2) / scale
    let x1 := min ex (ex + w)
    let x2 := max ex (ex + w)
    let y1 := min ey (ey + h)
    let y2 := max ey (ey + h)
    if |x - x1| < handleRadius ∧ |y - y1| < handleRadius then some Handle.tl
    else if |x - x2| < handleRadius ∧ |y - y1| < handleRadius then some Handle.tr
    else if |x - x1| < handleRadius ∧ |y - y2| < handleRadius then some Handle.bl
    else if |x - x2| < handleRadius ∧ |y - y2| < handleRadius then some Handle.br
    else if element.type = Tool.long_position ∨ element.type = Tool.short_position then
      let midX := x1 + (x2 - x1) / 2
      if |x - midX| < handleRadius ∧ |y - y1| < handleRadius then some Handle.n
      else if |x - midX| < handleRadius ∧ |y - y2| < handleRadius then some Handle.s
      else
        let ratio := element.entryRatio.getD 0.5
        let entryY := y1 + |h| * ratio
        if |x - x2| < handleRadius ∧ |y - entryY| < handleRadius then some Handle.entry
        else none
    else none

/-- The per-element body of the `resizing` branch of `handleMouseMove`
(AnnotationCanvas.tsx:1244-1277), applied to the selected element `el`.
`snapshot` is `interactionState.startElementSnapshot`, `startMousePos` the
drag's start, `(x, y)` the current mouse position in world coordinates.
The corner case tests `handle.includes('e' | 's' | 'w' | 'n')` on the
handle's name string, exactly as the source does (for the single-character
probes of the source, JavaScript `String.includes` coincides with
character containment). -/
def applyResize (snapshot : DrawingElement) (handle : Handle)
    (startMousePos : Point) (x y : ℚ) (el : DrawingElement) : DrawingElement :=
  let dx := x - startMousePos.x
  let dy := y - startMousePos.y
  let nx := snapshot.x
  let ny := snapshot.y
  let nw := snapshot.width.getD 0
  let nh := snapshot.height.getD 0
  if handle = Handle.entry then
    let relY := y - ny
    let ratio := min (max (relY / |nh|) 0.05) 0.95
    { el with entryRatio := some ratio }
  else
    let (nx, ny, nw, nh) :=
      if handle = Handle.n then (nx, ny + dy, nw, nh - dy)
      else if handle = Handle.s then (nx, ny, nw, nh + dy)
      else
        let nw := if (handleName handle).contains 'e' then nw + dx else nw
        let nh := if (handleName handle).contains 's' then nh + dy else nh
        let (nx, nw) :=
          if (handleName handle).contains 'w' then (nx + dx, nw - dx)
          else (nx, nw)
        let (ny, nh) :=
          if (handleName handle).contains 'n' then (ny + dy, nh - dy)
          else (ny, nh)
        (nx, ny, nw, nh)
    { el with x := nx, y := ny, width := some nw, height := some nh }

/-- The eraser branch of `handleMouseMove` (AnnotationCanvas.tsx:1302-1307):
keep an element iff the Euclidean distance from its origin to the current
point exceeds `eraserSize / scale`.  The source compares
`Math.sqrt(d) > r`; for the non-negative radius `eraserSize / scale`
(scale is clamped to `[0.1, 5]`) this is equivalent to the square-free
comparison `d > r ^ 2` used here, which keeps the definition executable. -/
def eraserFilter (elements : List DrawingElement) (x y eraserSize scale : ℚ) :
    List DrawingElement :=
  elements.filter fun el =>
    (el.x - x) ^ 2 + (el.y - y) ^ 2 > (eraserSize / scale) ^ 2

/-- A scene: the ordered element list held in the `elements` state. -/
abbrev Scene := List DrawingElement

/-- The history-related component state: the snapshot stack `history`, the
cursor `historyIndex`, the live `elements`, and `selectedElementIds`. -/
structure HistoryState where
  history : List Scene
  historyIndex : Nat
  elements : Scene
  selectedElementIds : List String
deriving DecidableEq, Repr

/-- `pushToHistory` (AnnotationCanvas.tsx:165-170): truncate the stack after
the cursor (`history.slice(0, historyIndex + 1)` is `List.take`), append the
new snapshot, and point the cursor at the new tail. -/
def pushToHistory (s : HistoryState) (newElements : Scene) : HistoryState :=
  let newHistory := s.history.take (s.historyIndex + 1) ++ [newElements]
  { s with history := newHistory, historyIndex := newHistory.length - 1 }

/-- A commit site in the source: `setElements(newElements)` followed by
`pushToHistory(newElements)`. -/
def commit (s : HistoryState) (newElements : Scene) : HistoryState :=
  pushToHistory { s with elements := newElements } newElements

/-- `undo` (AnnotationCanvas.tsx:172-178): if the cursor is above the
bottom, step it down, load `history[historyIndex - 1]` into the live scene
and clear the selection; otherwise do nothing.  `List.getD` with default
`[]` models the (always in-range) JavaScript index access. -/
def undo (s : HistoryState) : HistoryState :=
  if s.historyIndex > 0 then
    { s with historyIndex := s.historyIndex - 1,
             elements := s.history.getD (s.historyIndex - 1) [],
             selectedElementIds := [] }
  else s

/-- `redo` (AnnotationCanvas.tsx:180-186): mirror image of `undo` at the top
of the stack. -/
def redo (s : HistoryState) : HistoryState :=
  if s.historyIndex < s.history.length - 1 then
    { s with historyIndex := s.historyIndex + 1,
             elements := s.history.getD (s.historyIndex + 1) [],
             selectedElementIds := [] }
  else s

/-- The ambient style settings read by the drawing branch of
`handleMouseDown`. -/
structure StyleState where
  strokeColor : String
  strokeWidth : ℚ
  strokeStyle : Option StrokeStyle
  opacity : Option ℚ
  startArrowhead : Option ArrowheadKind
  endArrowhead : Option ArrowheadKind
  isDarkMode : Bool
deriving Repr

/-- The drawing branch of `handleMouseDown` (AnnotationCanvas.tsx:1129-1143):
the `baseElement` pinned at the click point with zero extent, specialised
per tool — `pencil` starts with the single point `[{x, y}]`, the two
position-marker tools override `width`/`height` to `100` and seed
`entryRatio` with `0.5`, every other drawing tool keeps the zero extent. -/
def startDrawing (effectiveTool : Tool) (id : String) (x y : ℚ)
    (st : StyleState) : DrawingElement :=
  let baseElement : DrawingElement :=
    { id := id, type := effectiveTool, x := x, y := y,
      width := some 0, height := some 0,
      strokeColor := if st.isDarkMode then "#e0e0e0" else st.strokeColor,
      backgroundColor := "transparent",
      strokeWidth := st.strokeWidth, strokeStyle := st.strokeStyle,
      opacity := st.opacity,
      startArrowhead := st.startArrowhead, endArrowhead := st.endArrowhead }
  if effectiveTool = Tool.pencil then
    { baseElement with points := some [⟨x, y⟩] }
  else if effectiveTool = Tool.long_position ∨ effectiveTool = Tool.short_position then
    { baseElement with width := some 100, height := some 100,
                       entryRatio := some 0.5 }
  else baseElement

/-- JavaScript `Array.from(new Set(l))`: first occurrences, in order. -/
def setFrom (l : List String) : List String :=
  l.foldl (fun acc a => if a ∈ acc then acc else acc ++ [a]) []

/-- The `selection_box` branch of `handleMouseUp`
(AnnotationCanvas.tsx:1319-1332): normalise the drag rectangle, collect the
ids of the elements whose full bounds lie inside it, and either union with
the previous selection (shift held) or replace it. -/
def selectionBoxResult (elements : Scene) (boxStart boxCurrent : Point)
    (shiftKey : Bool) (prevSelection : List String) : List String :=
  let x1 := min boxStart.x boxCurrent.x
  let x2 := max boxStart.x boxCurrent.x
  let y1 := min boxStart.y boxCurrent.y
  let y2 := max boxStart.y boxCurrent.y
  let idsInBox :=
    (elements.filter fun el =>
      let b := getElementBounds el
      b.minX ≥ x1 ∧ b.maxX ≤ x2 ∧ b.minY ≥ y1 ∧ b.maxY ≤ y2).map DrawingElement.id
  if shiftKey then setFrom (prevSelection ++ idsInBox) else idsInBox

/-- The per-item body of `handlePaste` (AnnotationCanvas.tsx:202-215):
fresh id, origin shifted by `offset` on both axes, and for `path`/`pencil`
every point shifted by the same offset. -/
def pasteElement (item : DrawingElement) (newId : String) (offset : ℚ) :
    DrawingElement :=
  let newEl := { item with id := newId, x := item.x + offset, y := item.y + offset }
  if (newEl.type = Tool.path ∨ newEl.type = Tool.pencil) ∧ newEl.points.isSome then
    { newEl with
      points := newEl.points.map (List.map fun p => ⟨p.x + offset, p.y + offset⟩) }
  else newEl

/-- `handlePaste` (AnnotationCanvas.tsx:198-222).  The source draws one
fresh identifier per clipboard item from `Date.now()` plus a random
suffix; that impure generator is modelled by the parameter `newIds`
(one id per item — hypotheses on freshness appear at the call sites, as
the generator's contract).  Returns the new element list and the new
selection; an empty clipboard leaves both untouched. -/
def handlePaste (clipboard : List DrawingElement) (newIds : List String)
    (elements : Scene) (scale : ℚ) (prevSelection : List String) :
    Scene × List String :=
  if clipboard.length > 0 then
    let offset := 20 / scale
    let pastedElements :=
      (clipboard.zip newIds).map fun p => pasteElement p.1 p.2 offset
    (elements ++ pastedElements, newIds)
  else (elements, prevSelection)

/-- Translating every stored coordinate of an element — the origin and, for
point-sequence kinds, every point — by `(dx, dy)`.  This is the
transformation the translation-equivariance property quantifies over (it is
also exactly what the `moving` branch of `handleMouseMove` applies to a
drag snapshot). -/
def translateElement (e : DrawingElement) (dx dy : ℚ) : DrawingElement :=
  { e with x := e.x + dx, y := e.y + dy,
           points := e.points.map (List.map fun p => ⟨p.x + dx, p.y + dy⟩) }

/-- Full-bounds containment of an element in the (already normalised)
world-space drag rectangle spanned by `boxStart` and `boxCurrent` — the
filter condition of the `selection_box` branch, as a `Prop`. -/
def boundsInBox (el : DrawingElement) (boxStart boxCurrent : Point) : Prop :=
  min boxStart.x boxCurrent.x ≤ (getElementBounds el).minX ∧
  (getElementBounds el).maxX ≤ max boxStart.x boxCurrent.x ∧
  min boxStart.y boxCurrent.y ≤ (getElementBounds el).minY ∧
  (getElementBounds el).maxY ≤ max boxStart.y boxCurrent.y

instance (el : DrawingElement) (s c : Point) : Decidable (boundsInBox el s c) := by
  unfold boundsInBox
  infer_instance

/-- The centres of the handles `getResizeHandleAtPosition` probes, in probe
order: the four corners for every box-like kind, plus the two vertical
midpoint handles and the entry handle for the position-marker kinds. -/
def handleCenters (element : DrawingElement) : List Point :=
  let w := element.width.getD 0
  let h := element.height.getD 0
  let x1 := min element.x (element.x + w)
  let x2 := max element.x (element.x + w)
  let y1 := min element.y (element.y + h)
  let y2 := max element.y (element.y + h)
  if element.type = Tool.long_position ∨ element.type = Tool.short_position then
    let midX := x1 + (x2 - x1) / 2
    let ratio := element.entryRatio.getD 0.5
    [⟨x1, y1⟩, ⟨x2, y1⟩, ⟨x1, y2⟩, ⟨x2, y2⟩,
     ⟨midX, y1⟩, ⟨midX, y2⟩, ⟨x2, y1 + |h| * ratio⟩]
  else
    [⟨x1, y1⟩, ⟨x2, y1⟩, ⟨x1, y2⟩, ⟨x2, y2⟩]

/-- Sample 10×10 rectangle used as a concrete drag snapshot. -/
def rectSnap : DrawingElement :=
  { id := "r", type := Tool.rectangle, x := 0, y := 0,
    width := some 10, height := some 10 }

/-- Sample 100×100 rectangle. -/
def rect100 : DrawingElement :=
  { id := "R", type := Tool.rectangle, x := 0, y := 0,
    width := some 100, height := some 100 }

/-- Sample 100×100 long-position marker. -/
def longPos100 : DrawingElement :=
  { id := "L", type := Tool.long_position, x := 0, y := 0,
    width := some 100, height := some 100, entryRatio := some 0.5 }

/-- Sample line element (a non-resizable kind). -/
def lineEl : DrawingElement :=
  { id := "l", type := Tool.line, x := 0, y := 0,
    width := some 10, height := some 10 }

/-- Sample element whose origin is at distance exactly 30 from (100, 100). -/
def elAt130 : DrawingElement :=
  { id := "a", type := Tool.rectangle, x := 130, y := 100 }

/-- Sample pencil element with no point sequence. -/
def pencilNoPts : DrawingElement :=
  { id := "p", type := Tool.pencil, x := 3, y := 4 }

/-- Sample pencil stroke with two points. -/
def pencilSeg : DrawingElement :=
  { id := "s", type := Tool.pencil, x := 1, y := 2,
    points := some [⟨1, 2⟩, ⟨4, 6⟩] }

/-- Sample rectangle drawn with negative extents (drag from (50,50) up-left
by 40 on both axes). -/
def negRect : DrawingElement :=
  { id := "n", type := Tool.rectangle, x := 50, y := 50,
    width := some (-40), height := some (-40) }

/-- Sample style settings for concrete evaluations. -/
def sampleStyle : StyleState :=
  { strokeColor := "#000000", strokeWidth := 2,
    strokeStyle := some StrokeStyle.solid, opacity := some 100,
    startArrowhead := none, endArrowhead := none, isDarkMode := false }

/-- C10: for a `pencil` or `path` element whose point sequence is absent or
empty, `getElementBounds` returns the degenerate (finite) bounds pinned at
the element's origin. -/
theorem C10_degenerate_bounds (e : DrawingElement)
    (htype : e.type = Tool.path ∨ e.type = Tool.pencil)
    (hpts : e.points = none ∨ e.points = some []) :
    getElementBounds e = ⟨e.x, e.x, e.y, e.y⟩ := by
  rcases hpts with h | h <;> simp [getElementBounds, htype, h]

/-- Witness for C10 at a concrete pencil element without points. -/
theorem C10_degenerate_bounds_witness :
    getElementBounds pencilNoPts = ⟨3, 3, 4, 4⟩ :=
  C10_degenerate_bounds pencilNoPts (Or.inr rfl) (Or.inl rfl)

/-- C2 counterexample: with `eraserSize = 30` and `scale = 1`, an eraser
move at world point (100, 100) REMOVES the element whose origin (130, 100)
lies at distance exactly 30 — the claim says such an element is retained. -/
theorem C2_boundary_removed :
    eraserFilter [elAt130] 100 100 30 1 = [] ∧
    (elAt130.x - 100) ^ 2 + (elAt130.y - 100) ^ 2 = ((30 : ℚ) / 1) ^ 2 := by
  constructor
  · simp [eraserFilter, elAt130]
    norm_num
  · norm_num [elAt130]

/-- C2 (amended): an eraser pointer-move at `(x, y)` retains exactly the
elements whose origin lies at squared distance strictly greater than
`(eraserSize / scale) ^ 2` from `(x, y)` — equivalently, it removes every
element whose origin is within distance `eraserSize / scale` inclusive, so
an element at distance exactly `eraserSize / scale` is removed. -/
theorem C2_eraser_membership (elements : Scene) (x y eraserSize scale : ℚ)
    (el : DrawingElement) :
    el ∈ eraserFilter elements x y eraserSize scale ↔
      el ∈ elements ∧
        (el.x - x) ^ 2 + (el.y - y) ^ 2 > (eraserSize / scale) ^ 2 := by
  simp [eraserFilter, List.mem_filter]

/-- C3 counterexample: pointer-down with the `long_position` tool creates
an element of width 100 and height 100, not zero extent as claimed (the
same holds for `short_position`). -/
theorem C3_position_marker_not_zero :
    (startDrawing Tool.long_position "i" 5 7 sampleStyle).width = some 100 ∧
    (startDrawing Tool.long_position "i" 5 7 sampleStyle).height = some 100 ∧
    (startDrawing Tool.long_position "i" 5 7 sampleStyle).width ≠ some 0 := by
  refine ⟨rfl, rfl, ?_⟩
  decide

/-- C3 (amended): pointer-down with the rectangle, diamond, ellipse, arrow
or line tool creates an element whose origin is the click point and whose
width and height are both zero; the position-marker tools instead create a
100×100 element at the click point with `entryRatio` 0.5; pencil starts
with the single point `[(x, y)]` at the click position. -/
theorem C3_start_drawing (t : Tool) (id : String) (x y : ℚ) (st : StyleState) :
    (t ∈ [Tool.rectangle, Tool.diamond, Tool.ellipse, Tool.arrow, Tool.line] →
      (startDrawing t id x y st).x = x ∧ (startDrawing t id x y st).y = y ∧
      (startDrawing t id x y st).width = some 0 ∧
      (startDrawing t id x y st).height = some 0) ∧
    ((t = Tool.long_position ∨ t = Tool.short_position) →
      (startDrawing t id x y st).x = x ∧ (startDrawing t id x y st).y = y ∧
      (startDrawing t id x y st).width = some 100 ∧
      (startDrawing t id x y st).height = some 100 ∧
      (startDrawing t id x y st).entryRatio = some 0.5) ∧
    ((startDrawing Tool.pencil id x y st).x = x ∧
     (startDrawing Tool.pencil id x y st).y = y ∧
     (startDrawing Tool.pencil id x y st).points = some [⟨x, y⟩]) := by
  refine ⟨?_, ?_, ?_⟩
  · intro ht
    fin_cases ht <;> simp [startDrawing]
  · rintro (rfl | rfl) <;> simp [startDrawing]
  · simp [startDrawing]

/-- Witness for C3 (amended) at concrete inputs. -/
theorem C3_start_drawing_witness :
    (startDrawing Tool.rectangle "i" 5 7 sampleStyle).width = some 0 ∧
    (startDrawing Tool.long_position "j" 5 7 sampleStyle).width = some 100 := by
  refine ⟨((C3_start_drawing Tool.rectangle "i" 5 7 sampleStyle).1 ?_).2.2.1,
          ((C3_start_drawing Tool.long_position "j" 5 7 sampleStyle).2.1 ?_).2.2.1⟩
  · decide
  · exact Or.inl rfl

/-- C1: evaluating the resizing step at a concrete corner drag shows the
bug — dragging the `br` (or any corner) handle of the 10×10 snapshot
rectangle by (5, 5) leaves origin and size exactly at the snapshot values
(the source probes `handle.includes('e'|'s'|'w'|'n')`, but corner handles
are named `tl`/`tr`/`bl`/`br`, so no probe ever matches). -/
theorem C1_corner_resize_is_noop :
    applyResize rectSnap Handle.br ⟨10, 10⟩ 15 15 rectSnap = rectSnap ∧
    applyResize rectSnap Handle.tl ⟨0, 0⟩ 5 5 rectSnap = rectSnap ∧
    applyResize rectSnap Handle.tr ⟨10, 0⟩ 15 5 rectSnap = rectSnap ∧
    applyResize rectSnap Handle.bl ⟨0, 10⟩ 5 15 rectSnap = rectSnap := by
  refine ⟨?_, ?_, ?_, ?_⟩ <;> decide

/-- Unfolding of `getElementBounds` on every non-point-sequence kind. -/
theorem getElementBounds_box (e : DrawingElement)
    (hpath : ¬(e.type = Tool.path ∨ e.type = Tool.pencil)) :
    getElementBounds e =
      ⟨min e.x (e.x + e.width.getD 0), max e.x (e.x + e.width.getD 0),
       min e.y (e.y + e.height.getD 0), max e.y (e.y + e.height.getD 0)⟩ := by
  simp only [getElementBounds]
  rw [if_neg hpath]

/-- Shifting an endpoint by a signed extent and flipping the sign leaves
the spanned interval unchanged: the min/max of
`(if w < 0 then x + w else x)` and that value plus `|w|` coincide with the
min/max of `x` and `x + w`. -/
theorem minmax_shift_abs (x w : ℚ) :
    min (if w < 0 then x + w else x) ((if w < 0 then x + w else x) + |w|)
      = min x (x + w) ∧
    max (if w < 0 then x + w else x) ((if w < 0 then x + w else x) + |w|)
      = max x (x + w) := by
  rcases lt_or_ge w 0 with hw | hw
  · rw [if_pos hw, abs_of_neg hw]
    have hxw : x + w + -w = x := by ring
    rw [hxw, min_comm, max_comm]
    exact ⟨rfl, rfl⟩
  · rw [if_neg (not_lt.mpr hw), abs_of_nonneg hw]
    exact ⟨rfl, rfl⟩

/-- C6: `normalizeElement` is idempotent on every element, and on a
box-like element with negative width or height it preserves
`getElementBounds` while making width and height non-negative. -/
theorem C6_normalize_idempotent (e : DrawingElement) :
    normalizeElement (normalizeElement e) = normalizeElement e ∧
    (e.type ∈ boxKinds →
      (e.width.getD 0 < 0 ∨ e.height.getD 0 < 0) →
      getElementBounds (normalizeElement e) = getElementBounds e ∧
      0 ≤ (normalizeElement e).width.getD 0 ∧
      0 ≤ (normalizeElement e).height.getD 0) := by
  by_cases hbox : e.type ∈ boxKinds
  · by_cases hneg : e.width.getD 0 < 0 ∨ e.height.getD 0 < 0
    · have h1 : normalizeElement e =
          { e with
            x := if e.width.getD 0 < 0 then e.x + e.width.getD 0 else e.x,
            y := if e.height.getD 0 < 0 then e.y + e.height.getD 0 else e.y,
            width := some |e.width.getD 0|,
            height := some |e.height.getD 0| } := by
        simp [normalizeElement, hbox, hneg]
      have hw : ¬ (|e.width.getD 0| < 0) := not_lt.mpr (abs_nonneg _)
      have hh : ¬ (|e.height.getD 0| < 0) := not_lt.mpr (abs_nonneg _)
      have hpath : ¬ (e.type = Tool.path ∨ e.type = Tool.pencil) := by
        simp only [boxKinds, List.mem_cons, List.mem_singleton,
          List.not_mem_nil, or_false] at hbox
        rcases hbox with h | h | h | h | h | h <;> simp [h]
      refine ⟨?_, fun _ _ => ⟨?_, ?_, ?_⟩⟩
      · rw [h1]
        simp [normalizeElement, hbox, hw, hh]
      · have hx := minmax_shift_abs e.x (e.width.getD 0)
        have hy := minmax_shift_abs e.y (e.height.getD 0)
        have h2 := getElementBounds_box (normalizeElement e)
          (by rw [h1]; exact hpath)
        rw [getElementBounds_box e hpath, h2, h1]
        simp only [Option.getD_some, Bounds.mk.injEq]
        exact ⟨hx.1, hx.2, hy.1, hy.2⟩
      · rw [h1]
        simp [abs_nonneg]
      · rw [h1]
        simp [abs_nonneg]
    · have h0 : normalizeElement e = e := by
        simp [normalizeElement, hbox, hneg]
      rw [h0, h0]
      exact ⟨rfl, fun _ hc => absurd hc hneg⟩
  · have h0 : normalizeElement e = e := by
      simp [normalizeElement, hbox]
    rw [h0, h0]
    exact ⟨rfl, fun hc => absurd hc hbox⟩

/-- Witness for C6 at the concrete negative-extent rectangle drawn from
(50, 50) to (10, 10). -/
theorem C6_normalize_idempotent_witness :
    normalizeElement (normalizeElement negRect) = normalizeElement negRect ∧
    getElementBounds (normalizeElement negRect) = getElementBounds negRect ∧
    0 ≤ (normalizeElement negRect).width.getD 0 :=
  ⟨(C6_normalize_idempotent negRect).1,
   ((C6_normalize_idempotent negRect).2 (by decide) (by decide)).1,
   ((C6_normalize_idempotent negRect).2 (by decide) (by decide)).2.1⟩

/-- `min` distributes over adding a constant to both arguments. -/
theorem min_add_right (a b c : ℚ) : min (a + c) (b + c) = min a b + c := by
  rcases le_total a b with h | h
  · rw [min_eq_left (add_le_add_right h c), min_eq_left h]
  · rw [min_eq_right (add_le_add_right h c), min_eq_right h]

/-- `max` distributes over adding a constant to both arguments. -/
theorem max_add_right (a b c : ℚ) : max (a + c) (b + c) = max a b + c := by
  rcases le_total a b with h | h
  · rw [max_eq_right (add_le_add_right h c), max_eq_right h]
  · rw [max_eq_left (add_le_add_right h c), max_eq_left h]

/-- A running `min` over a list with a constant added to every entry and to
the accumulator is the original running `min` plus the constant. -/
theorem foldl_min_map_add (l : List ℚ) (a c : ℚ) :
    (l.map (· + c)).foldl min (a + c) = l.foldl min a + c := by
  induction l generalizing a with
  | nil => rfl
  | cons b t ih =>
      simp only [List.map_cons, List.foldl_cons, min_add_right]
      exact ih (min a b)

/-- A running `max` over a list with a constant added to every entry and to
the accumulator is the original running `max` plus the constant. -/
theorem foldl_max_map_add (l : List ℚ) (a c : ℚ) :
    (l.map (· + c)).foldl max (a + c) = l.foldl max a + c := by
  induction l generalizing a with
  | nil => rfl
  | cons b t ih =>
      simp only [List.map_cons, List.foldl_cons, max_add_right]
      exact ih (max a b)

/-- C9: `getElementBounds` is translation-equivariant — translating the
origin and every stored point of an element by `(dx, dy)` translates each
bound by the same amount. -/
theorem C9_bounds_translation (e : DrawingElement) (dx dy : ℚ) :
    getElementBounds (translateElement e dx dy) =
      ⟨(getElementBounds e).minX + dx, (getElementBounds e).maxX + dx,
       (getElementBounds e).minY + dy, (getElementBounds e).maxY + dy⟩ := by
  by_cases hty : e.type = Tool.path ∨ e.type = Tool.pencil
  · cases hpts : e.points with
    | none => simp [getElementBounds, translateElement, hty, hpts]
    | some l =>
      cases l with
      | nil => simp [getElementBounds, translateElement, hty, hpts]
      | cons p ps =>
          have htty : (translateElement e dx dy).type = Tool.path ∨
              (translateElement e dx dy).type = Tool.pencil := by
            simpa [translateElement] using hty
          simp only [getElementBounds, translateElement, hty, htty, hpts,
            if_pos, Option.map_some, Option.map_some', List.map_cons,
            Bounds.mk.injEq]
          simp only [List.map_map, Function.comp_def]
          refine ⟨?_, ?_, ?_, ?_⟩
          · rw [show ps.map (fun q : Point => q.x + dx)
                  = (ps.map Point.x).map (· + dx) by simp]
            exact foldl_min_map_add (ps.map Point.x) p.x dx
          · rw [show ps.map (fun q : Point => q.x + dx)
                  = (ps.map Point.x).map (· + dx) by simp]
            exact foldl_max_map_add (ps.map Point.x) p.x dx
          · rw [show ps.map (fun q : Point => q.y + dy)
                  = (ps.map Point.y).map (· + dy) by simp]
            exact foldl_min_map_add (ps.map Point.y) p.y dy
          · rw [show ps.map (fun q : Point => q.y + dy)
                  = (ps.map Point.y).map (· + dy) by simp]
            exact foldl_max_map_add (ps.map Point.y) p.y dy
  · have h1 := getElementBounds_box e hty
    have h2 := getElementBounds_box (translateElement e dx dy)
      (by simpa [translateElement] using hty)
    rw [h2, h1]
    have hwx : (translateElement e dx dy).x = e.x + dx := rfl
    have hwy : (translateElement e dx dy).y = e.y + dy := rfl
    have hww : (translateElement e dx dy).width = e.width := rfl
    have hwh : (translateElement e dx dy).height = e.height := rfl
    rw [hwx, hwy, hww, hwh]
    have ax : e.x + dx + e.width.getD 0 = e.x + e.width.getD 0 + dx := by ring
    have ay : e.y + dy + e.height.getD 0 = e.y + e.height.getD 0 + dy := by ring
    rw [ax, ay, min_add_right, max_add_right, min_add_right, max_add_right]

/-- Folding JS-`Set` insertion over a list preserves membership. -/
theorem mem_setFrom_foldl (l : List String) (acc : List String) (a : String) :
    a ∈ l.foldl (fun acc b => if b ∈ acc then acc else acc ++ [b]) acc ↔
      a ∈ acc ∨ a ∈ l := by
  induction l generalizing acc with
  | nil => simp
  | cons b t ih =>
      simp only [List.foldl_cons, List.mem_cons]
      by_cases hb : b ∈ acc
      · rw [if_pos hb, ih]
        constructor
        · rintro (h | h)
          · exact Or.inl h
          · exact Or.inr (Or.inr h)
        · rintro (h | rfl | h)
          · exact Or.inl h
          · exact Or.inl hb
          · exact Or.inr h
      · rw [if_neg hb, ih]
        simp only [List.mem_append, List.mem_singleton]
        tauto

/-- Membership in `setFrom` is membership in the underlying list. -/
theorem mem_setFrom (l : List String) (a : String) :
    a ∈ setFrom l ↔ a ∈ l := by
  rw [setFrom, mem_setFrom_foldl]
  simp

/-- The id of an element of the scene is among the ids of a filtered scene
iff the element satisfies the filter, provided scene ids are unique. -/
theorem mem_filter_map_id (elements : Scene)
    (hids : (elements.map DrawingElement.id).Nodup)
    (p : DrawingElement → Bool) (el : DrawingElement) (hel : el ∈ elements) :
    el.id ∈ (elements.filter p).map DrawingElement.id ↔ p el = true := by
  constructor
  · intro h
    rcases List.mem_map.mp h with ⟨el', hel', hid⟩
    rcases List.mem_filter.mp hel' with ⟨hel'', hp⟩
    have : el' = el :=
      List.inj_on_of_nodup_map hids hel'' hel hid
    rwa [this] at hp
  · intro hp
    exact List.mem_map.mpr ⟨el, List.mem_filter.mpr ⟨hel, hp⟩, rfl⟩

/-- C4: on release of a box selection, an element of the scene is selected
iff its full bounds lie inside the drag rectangle, except that with shift
held the ids of the prior selection are additionally retained (union);
without shift the box contents replace the selection. -/
theorem C4_box_selection (elements : Scene)
    (hids : (elements.map DrawingElement.id).Nodup)
    (boxStart boxCurrent : Point) (shiftKey : Bool) (prev : List String)
    (el : DrawingElement) (hel : el ∈ elements) :
    el.id ∈ selectionBoxResult elements boxStart boxCurrent shiftKey prev ↔
      (boundsInBox el boxStart boxCurrent ∨
        (shiftKey = true ∧ el.id ∈ prev)) := by
  cases shiftKey with
  | false =>
      simp only [selectionBoxResult, Bool.false_eq_true, if_false,
        false_and, or_false]
      rw [mem_filter_map_id elements hids _ el hel]
      simp [boundsInBox, ge_iff_le, and_assoc]
  | true =>
      simp only [selectionBoxResult, if_true, true_and]
      rw [mem_setFrom]
      simp only [List.mem_append]
      rw [mem_filter_map_id elements hids _ el hel]
      simp only [decide_eq_true_eq, ge_iff_le]
      constructor
      · rintro (h | ⟨h1, h2, h3, h4⟩)
        · exact Or.inr h
        · exact Or.inl ⟨h1, h2, h3, h4⟩
      · rintro (⟨h1, h2, h3, h4⟩ | h)
        · exact Or.inr ⟨h1, h2, h3, h4⟩
        · exact Or.inl h

/-- Witness for C4: a 10×10 rectangle fully inside the drag rectangle from
(-1, -1) to (20, 20) is selected. -/
theorem C4_box_selection_witness :
    rectSnap.id ∈ selectionBoxResult [rectSnap] ⟨-1, -1⟩ ⟨20, 20⟩ false [] :=
  (C4_box_selection [rectSnap] (by decide) ⟨-1, -1⟩ ⟨20, 20⟩ false []
    rectSnap (by simp)).mpr
    (Or.inl (by
      unfold boundsInBox
      rw [getElementBounds_box rectSnap (by simp [rectSnap])]
      norm_num [rectSnap]))

/-- C8 counterexample: with `scale = 1`, the point (6, 0) lies within 8
world units of the top-left handle centre (0, 0) of the 100×100 rectangle
on both axes (and at Euclidean distance 6 < 8), yet no handle is reported —
the hit radius in the code is `(HANDLE_SIZE / 2) / scale = 4 / scale`, not
`8 / scale`. -/
theorem C8_radius_counterexample :
    getResizeHandleAtPosition 6 0 rect100 1 = none ∧
    |(6 : ℚ) - rect100.x| < 8 / 1 ∧ |(0 : ℚ) - rect100.y| < 8 / 1 := by
  refine ⟨?_, by norm_num [rect100], by norm_num [rect100]⟩
  norm_num [getResizeHandleAtPosition, rect100, boxKinds, HANDLE_SIZE,
    abs_sub_lt_iff]

/-- C8 (amended): for non-box-like kinds (`path`, `line`, `text`, `pencil`,
`arrow`, …) `getResizeHandleAtPosition` reports no handle at any point; for
box-like kinds it reports a handle exactly when the point lies within
`(HANDLE_SIZE / 2) / scale = 4 / scale` of some applicable handle centre on
both axes (strict per-axis comparison — the four corners for every box-like
kind, plus the two vertical midpoints and the entry handle for position
markers). -/
theorem C8_handle_hit (x y scale : ℚ) (element : DrawingElement) :
    (element.type ∉ boxKinds →
      getResizeHandleAtPosition x y element scale = none) ∧
    (element.type ∈ boxKinds →
      ((getResizeHandleAtPosition x y element scale).isSome ↔
        ∃ c ∈ handleCenters element,
          |x - c.x| < (HANDLE_SIZE / 2) / scale ∧
          |y - c.y| < (HANDLE_SIZE / 2) / scale)) := by
  constructor
  · intro hnb
    simp [getResizeHandleAtPosition, hnb]
  · intro hbox
    rw [getResizeHandleAtPosition, if_neg (by simpa using hbox)]
    by_cases hpos : element.type = Tool.long_position ∨
        element.type = Tool.short_position
    · simp only [handleCenters, if_pos hpos]
      split_ifs with h1 h2 h3 h4 h5 h6 h7
      · exact iff_of_true rfl
          ⟨_, List.mem_cons_self _ _, h1.1, h1.2⟩
      · exact iff_of_true rfl
          ⟨_, List.mem_cons_of_mem _ (List.mem_cons_self _ _), h2.1, h2.2⟩
      · exact iff_of_true rfl
          ⟨_, List.mem_cons_of_mem _ (List.mem_cons_of_mem _
            (List.mem_cons_self _ _)), h3.1, h3.2⟩
      · exact iff_of_true rfl
          ⟨_, List.mem_cons_of_mem _ (List.mem_cons_of_mem _
            (List.mem_cons_of_mem _ (List.mem_cons_self _ _))), h4.1, h4.2⟩
      · exact iff_of_true rfl
          ⟨_, List.mem_cons_of_mem _ (List.mem_cons_of_mem _
            (List.mem_cons_of_mem _ (List.mem_cons_of_mem _
              (List.mem_cons_self _ _)))), h5.1, h5.2⟩
      · exact iff_of_true rfl
          ⟨_, List.mem_cons_of_mem _ (List.mem_cons_of_mem _
            (List.mem_cons_of_mem _ (List.mem_cons_of_mem _
              (List.mem_cons_of_mem _ (List.mem_cons_self _ _))))),
           h6.1, h6.2⟩
      · exact iff_of_true rfl
          ⟨_, List.mem_cons_of_mem _ (List.mem_cons_of_mem _
            (List.mem_cons_of_mem _ (List.mem_cons_of_mem _
              (List.mem_cons_of_mem _ (List.mem_cons_of_mem _
                (List.mem_cons_self _ _)))))), h7.1, h7.2⟩
      · refine iff_of_false (by simp) ?_
        rintro ⟨c, hc, hcx, hcy⟩
        simp only [List.mem_cons, List.not_mem_nil, or_false] at hc
        rcases hc with rfl | rfl | rfl | rfl | rfl | rfl | rfl
        · exact h1 ⟨hcx, hcy⟩
        · exact h2 ⟨hcx, hcy⟩
        · exact h3 ⟨hcx, hcy⟩
        · exact h4 ⟨hcx, hcy⟩
        · exact h5 ⟨hcx, hcy⟩
        · exact h6 ⟨hcx, hcy⟩
        · exact h7 ⟨hcx, hcy⟩
    · simp only [handleCenters, if_neg hpos]
      split_ifs with h1 h2 h3 h4
      · exact iff_of_true rfl
          ⟨_, List.mem_cons_self _ _, h1.1, h1.2⟩
      · exact iff_of_true rfl
          ⟨_, List.mem_cons_of_mem _ (List.mem_cons_self _ _), h2.1, h2.2⟩
      · exact iff_of_true rfl
          ⟨_, List.mem_cons_of_mem _ (List.mem_cons_of_mem _
            (List.mem_cons_self _ _)), h3.1, h3.2⟩
      · exact iff_of_true rfl
          ⟨_, List.mem_cons_of_mem _ (List.mem_cons_of_mem _
            (List.mem_cons_of_mem _ (List.mem_cons_self _ _))), h4.1, h4.2⟩
      · refine iff_of_false (by simp) ?_
        rintro ⟨c, hc, hcx, hcy⟩
        simp only [List.mem_cons, List.not_mem_nil, or_false] at hc
        rcases hc with rfl | rfl | rfl | rfl
        · exact h1 ⟨hcx, hcy⟩
        · exact h2 ⟨hcx, hcy⟩
        · exact h3 ⟨hcx, hcy⟩
        · exact h4 ⟨hcx, hcy⟩

/-- Witness for C8 (amended): a line element yields no handle, and the
point (3, 0) — within 4 world units of the top-left corner of the 100×100
rectangle on both axes — yields a handle. -/
theorem C8_handle_hit_witness :
    getResizeHandleAtPosition 0 0 lineEl 1 = none ∧
    (getResizeHandleAtPosition 3 0 rect100 1).isSome = true := by
  refine ⟨(C8_handle_hit 0 0 1 lineEl).1 (by decide),
    ((C8_handle_hit 3 0 1 rect100).2 (by decide)).mpr ⟨⟨0, 0⟩, ?_, ?_, ?_⟩⟩
  · have h0 : (0 : ℚ) ⊓ (0 + 100) = 0 := by
      rw [inf_eq_left.mpr (by norm_num)]
    simp [handleCenters, rect100, h0]
  · norm_num [HANDLE_SIZE]
  · norm_num [HANDLE_SIZE]

/-- `getD` of a `take` prefix agrees with the original list inside the
prefix. -/
theorem getD_take (l : List Scene) (n k : Nat) (d : Scene) (hk : k < n)
    (hl : k < l.length) :
    (l.take n).getD k d = l.getD k d := by
  have h1 : k < (l.take n).length := by
    rw [List.length_take]
    omega
  rw [List.getD_eq_getElem _ _ h1, List.getD_eq_getElem _ _ hl]
  exact List.getElem_take l

/-- C5: starting from any well-formed history state, `commit S1; commit S2;
undo; redo` leaves the live scene at `S2`; `commit S1; commit S2; undo;
undo` leaves it at the snapshot current before `S1`; `undo` at the bottom
of the stack and `redo` at the top are silent no-ops on the whole state;
and every `undo`/`redo` that moves the index clears the selection. -/
theorem C5_history_round_trip (s : HistoryState) (S1 S2 : Scene)
    (h : s.historyIndex < s.history.length) :
    (redo (undo (commit (commit s S1) S2))).elements = S2 ∧
    (undo (undo (commit (commit s S1) S2))).elements
      = s.history.getD s.historyIndex [] ∧
    (∀ t : HistoryState, t.historyIndex = 0 → undo t = t) ∧
    (∀ t : HistoryState, t.historyIndex = t.history.length - 1 → redo t = t) ∧
    (∀ t : HistoryState, (undo t).historyIndex ≠ t.historyIndex →
      (undo t).selectedElementIds = []) ∧
    (∀ t : HistoryState, (redo t).historyIndex ≠ t.historyIndex →
      (redo t).selectedElementIds = []) := by
  obtain ⟨hist, i, elems, sel⟩ := s
  simp only at h
  have hl1 : (hist.take (i + 1)).length = i + 1 := by
    rw [List.length_take]
    omega
  have e1 : commit ⟨hist, i, elems, sel⟩ S1 =
      ⟨hist.take (i + 1) ++ [S1], i + 1, S1, sel⟩ := by
    simp only [commit, pushToHistory, HistoryState.mk.injEq, List.length_append,
      List.length_cons, List.length_nil, hl1, true_and, and_true]
    omega
  have hl2 : (hist.take (i + 1) ++ [S1]).length = i + 2 := by
    rw [List.length_append, hl1]
    rfl
  have e2 : commit (commit ⟨hist, i, elems, sel⟩ S1) S2 =
      ⟨(hist.take (i + 1) ++ [S1]) ++ [S2], i + 2, S2, sel⟩ := by
    rw [e1]
    simp only [commit, pushToHistory]
    rw [List.take_of_length_le (by rw [hl2])]
    simp only [HistoryState.mk.injEq, List.length_append, List.length_cons,
      List.length_nil, hl2, true_and, and_true]
    omega
  have hl3 : ((hist.take (i + 1) ++ [S1]) ++ [S2]).length = i + 3 := by
    rw [List.length_append, hl2]
    rfl
  have hgd1 : ((hist.take (i + 1) ++ [S1]) ++ [S2]).getD (i + 1) [] = S1 := by
    rw [List.getD_append _ _ _ _ (by rw [hl2]; omega),
        List.getD_append_right _ _ _ _ (by rw [hl1])]
    rw [hl1, Nat.sub_self]
    rfl
  have hgd2 : ((hist.take (i + 1) ++ [S1]) ++ [S2]).getD (i + 2) [] = S2 := by
    rw [List.getD_append_right _ _ _ _ (by rw [hl2])]
    rw [hl2, Nat.sub_self]
    rfl
  have hgd0 : ((hist.take (i + 1) ++ [S1]) ++ [S2]).getD i []
      = hist.getD i [] := by
    rw [List.getD_append _ _ _ _ (by rw [hl2]; omega),
        List.getD_append _ _ _ _ (by rw [hl1]; omega)]
    exact getD_take hist (i + 1) i [] (by omega) h
  have u1 : undo (commit (commit ⟨hist, i, elems, sel⟩ S1) S2) =
      ⟨(hist.take (i + 1) ++ [S1]) ++ [S2], i + 1, S1, []⟩ := by
    rw [e2]
    simp only [undo]
    rw [if_pos (by omega : i + 2 > 0)]
    simp only [HistoryState.mk.injEq, true_and, and_true]
    have hidx : i + 2 - 1 = i + 1 := by omega
    rw [hidx, hgd1]
    exact ⟨rfl, rfl⟩
  refine ⟨?_, ?_, ?_, ?_, ?_, ?_⟩
  · rw [u1]
    simp only [redo]
    rw [if_pos (by rw [hl3]; omega :
      i + 1 < ((hist.take (i + 1) ++ [S1]) ++ [S2]).length - 1)]
    show ((hist.take (i + 1) ++ [S1]) ++ [S2]).getD (i + 1 + 1) [] = S2
    have hidx : i + 1 + 1 = i + 2 := by omega
    rw [hidx, hgd2]
  · rw [u1]
    simp only [undo]
    rw [if_pos (by omega : i + 1 > 0)]
    show ((hist.take (i + 1) ++ [S1]) ++ [S2]).getD (i + 1 - 1) []
      = hist.getD i []
    have hidx : i + 1 - 1 = i := by omega
    rw [hidx, hgd0]
  · intro t ht
    simp [undo, ht]
  · intro t ht
    have hnl : ¬ t.historyIndex < t.history.length - 1 := by omega
    simp [redo, hnl]
  · intro t hne
    by_cases hc : t.historyIndex > 0
    · simp [undo, hc]
    · simp [undo, hc] at hne
  · intro t hne
    by_cases hc : t.historyIndex < t.history.length - 1
    · simp [redo, hc]
    · simp [redo, hc] at hne

/-- Witness for C5 at a concrete initial history. -/
theorem C5_history_round_trip_witness :
    (redo (undo (commit (commit ⟨[[]], 0, [], []⟩ [rectSnap])
      [rectSnap, lineEl]))).elements = [rectSnap, lineEl] ∧
    (undo (undo (commit (commit ⟨[[]], 0, [], []⟩ [rectSnap])
      [rectSnap, lineEl]))).elements = [] := by
  have h := C5_history_round_trip ⟨[[]], 0, [], []⟩ [rectSnap]
    [rectSnap, lineEl] (by simp)
  exact ⟨h.1, h.2.1⟩

/-- `pasteElement` always installs the fresh identifier. -/
theorem pasteElement_id (item : DrawingElement) (nid : String) (off : ℚ) :
    (pasteElement item nid off).id = nid := by
  simp only [pasteElement]
  split_ifs <;> rfl

/-- `pasteElement` shifts the x origin by the offset. -/
theorem pasteElement_x (item : DrawingElement) (nid : String) (off : ℚ) :
    (pasteElement item nid off).x = item.x + off := by
  simp only [pasteElement]
  split_ifs <;> rfl

/-- `pasteElement` shifts the y origin by the offset. -/
theorem pasteElement_y (item : DrawingElement) (nid : String) (off : ℚ) :
    (pasteElement item nid off).y = item.y + off := by
  simp only [pasteElement]
  split_ifs <;> rfl

/-- On point-sequence kinds `pasteElement` shifts every stored point. -/
theorem pasteElement_points (item : DrawingElement) (nid : String) (off : ℚ)
    (ht : item.type = Tool.path ∨ item.type = Tool.pencil) :
    (pasteElement item nid off).points =
      item.points.map (List.map fun p => ⟨p.x + off, p.y + off⟩) := by
  simp only [pasteElement]
  split_ifs with hc
  · rfl
  · have hns : ¬ (item.points.isSome = true) := fun hs => hc ⟨ht, hs⟩
    rw [Option.not_isSome_iff_eq_none] at hns
    simp [hns]

/-- The identifiers of the elements pasted from a clipboard are exactly the
supplied fresh identifiers. -/
theorem paste_map_id (cb : List DrawingElement) (ids : List String) (off : ℚ)
    (hlen : ids.length = cb.length) :
    ((cb.zip ids).map fun p => pasteElement p.1 p.2 off).map
      DrawingElement.id = ids := by
  induction cb generalizing ids with
  | nil =>
      cases ids with
      | nil => rfl
      | cons a as => simp at hlen
  | cons c ct ih =>
      cases ids with
      | nil => simp at hlen
      | cons a as =>
          simp only [List.zip_cons_cons, List.map_cons, pasteElement_id,
            List.cons.injEq, true_and]
          exact ih as (by simpa using hlen)

/-- Index access into the pasted block. -/
theorem paste_getD (cb : List DrawingElement) (ids : List String) (off : ℚ)
    (j : Nat) (hlen : ids.length = cb.length) (hj : j < cb.length) :
    ((cb.zip ids).map fun p => pasteElement p.1 p.2 off).getD j default
      = pasteElement (cb.getD j default) (ids.getD j "") off := by
  induction cb generalizing ids j with
  | nil => simp at hj
  | cons c ct ih =>
      cases ids with
      | nil => simp at hlen
      | cons a as =>
          cases j with
          | zero => rfl
          | succ k =>
              simp only [List.zip_cons_cons, List.map_cons,
                List.getD_cons_succ]
              exact ih as k (by simpa using hlen) (by simpa using hj)

/-- C7: pasting a non-empty clipboard of `k` elements appends exactly `k`
new elements to the scene, keeps the existing prefix untouched, gives the
new elements exactly the supplied fresh identifiers (pairwise distinct and
distinct from every existing id, so the full id list stays duplicate-free),
translates each copy by `(20/scale, 20/scale)` — point-sequence kinds
translating every point — and sets the selection to exactly the new
identifiers. -/
theorem C7_paste (clipboard : List DrawingElement) (elements : Scene)
    (newIds prevSelection : List String) (scale : ℚ)
    (hlen : newIds.length = clipboard.length)
    (hnd : newIds.Nodup)
    (hfresh : ∀ a ∈ newIds, a ∉ elements.map DrawingElement.id)
    (hscene : (elements.map DrawingElement.id).Nodup)
    (hne : clipboard ≠ []) :
    (handlePaste clipboard newIds elements scale prevSelection).1.length
      = elements.length + clipboard.length ∧
    (handlePaste clipboard newIds elements scale prevSelection).2 = newIds ∧
    ((handlePaste clipboard newIds elements scale prevSelection).1.map
      DrawingElement.id).Nodup ∧
    ((handlePaste clipboard newIds elements scale prevSelection).1.take
      elements.length) = elements ∧
    (((handlePaste clipboard newIds elements scale prevSelection).1.drop
      elements.length).map DrawingElement.id) = newIds ∧
    (∀ j, j < clipboard.length →
      ((handlePaste clipboard newIds elements scale prevSelection).1.getD
          (elements.length + j) default).id = newIds.getD j "" ∧
      ((handlePaste clipboard newIds elements scale prevSelection).1.getD
          (elements.length + j) default).x
        = (clipboard.getD j default).x + 20 / scale ∧
      ((handlePaste clipboard newIds elements scale prevSelection).1.getD
          (elements.length + j) default).y
        = (clipboard.getD j default).y + 20 / scale ∧
      (((clipboard.getD j default).type = Tool.path ∨
          (clipboard.getD j default).type = Tool.pencil) →
        ((handlePaste clipboard newIds elements scale prevSelection).1.getD
            (elements.length + j) default).points
          = (clipboard.getD j default).points.map
              (List.map fun p => ⟨p.x + 20 / scale, p.y + 20 / scale⟩))) := by
  have hpos : clipboard.length > 0 := List.length_pos.mpr hne
  have hp : handlePaste clipboard newIds elements scale prevSelection =
      (elements ++ (clipboard.zip newIds).map
        (fun p => pasteElement p.1 p.2 (20 / scale)), newIds) := by
    rw [handlePaste, if_pos hpos]
  have hplen : ((clipboard.zip newIds).map
      (fun p => pasteElement p.1 p.2 (20 / scale))).length
        = clipboard.length := by
    rw [List.length_map, List.length_zip, hlen, min_self]
  have hids := paste_map_id clipboard newIds (20 / scale) hlen
  refine ⟨?_, ?_, ?_, ?_, ?_, ?_⟩
  · rw [hp]
    simp only [List.length_append, hplen]
  · rw [hp]
  · rw [hp]
    simp only [List.map_append, hids]
    exact hscene.append hnd (List.disjoint_right.mpr hfresh)
  · rw [hp]
    exact List.take_left elements _
  · rw [hp]
    simp only [List.drop_left, hids]
  · intro j hj
    have hacc : (handlePaste clipboard newIds elements scale
        prevSelection).1.getD (elements.length + j) default
          = pasteElement (clipboard.getD j default) (newIds.getD j "")
              (20 / scale) := by
      rw [hp]
      simp only []
      rw [List.getD_append_right _ _ _ _ (Nat.le_add_right _ _),
        Nat.add_sub_cancel_left]
      exact paste_getD clipboard newIds (20 / scale) j hlen hj
    rw [hacc]
    exact ⟨pasteElement_id _ _ _, pasteElement_x _ _ _, pasteElement_y _ _ _,
      pasteElement_points _ _ _⟩

/-- Witness for C7: pasting one pencil stroke next to one rectangle. -/
theorem C7_paste_witness :
    (handlePaste [pencilSeg] ["p1"] [rectSnap] 1 []).1.length = 2 ∧
    (handlePaste [pencilSeg] ["p1"] [rectSnap] 1 []).2 = ["p1"] := by
  have h := C7_paste [pencilSeg] [rectSnap] ["p1"] [] 1 (by decide) (by decide)
    (by decide) (by decide) (by decide)
  exact ⟨h.1, h.2.1⟩

end Canvas



